import Mathlib

/-!
# Verification of the OpenCode core: stream decoder and process manager

A shallow embedding of the event-decoding and process-dispatch core of the
`master-of-opencode` plugin (sources: `StreamParser` and `ProcessManager`).

Modelling conventions:
* JavaScript strings are embedded as `List Char` (named `Str` below), so that
  chunk concatenation and line splitting can be reasoned about by structural
  induction.  `String.split('\n')` / `pop()` become `splitLines`; `trim` keeps
  the usual ASCII whitespace set.
* A runtime value obtained from `JSON.parse` is not validated by the source
  (`JSON.parse(line) as OpenCodeEvent`), so every field of the raw protocol
  records is optional (`Option`), `none` standing for `undefined`.  Payload
  fields that the code merely passes through without inspecting (tool input,
  metadata, token counts, cost, timestamps) are abstracted by a type
  parameter `U`.
* `JSON.parse` itself is library code, not part of this repository; the
  decoder is therefore parametrised by `p : Str → Option (RawEvent U)`,
  where `p line = none` models `JSON.parse` throwing on an invalid line.
* A JavaScript `TypeError` raised inside `handleEvent` (access to a field of
  an `undefined` `part`) is modelled by an explicit `Bool` "threw" component;
  the `try { … } catch { … }` of `parseLine` is the `match` that consumes it.
  Events already emitted before the throw are kept, as synchronous
  `EventEmitter` listeners have already observed them.
* JavaScript truthiness on strings (`''` is falsy, `undefined` is falsy) is
  `jsTruthy`; `a || b` on strings is `jsOrStr`.
-/

namespace MOC

/-- JavaScript strings, embedded as character lists. -/
abbrev Str := List Char

/-- ASCII whitespace, the fragment of `String.prototype.trim` relevant here. -/
def isWsp (c : Char) : Bool := c = ' ' || c = '\t' || c = '\n' || c = '\r'

/-- `s.trim()`: drop whitespace from both ends. -/
def trimS (l : Str) : Str := ((l.dropWhile isWsp).reverse.dropWhile isWsp).reverse

/-- JavaScript truthiness of a possibly-undefined string:
`undefined` and `''` are falsy. -/
def jsTruthy : Option Str → Bool
  | some s => !s.isEmpty
  | none => false

/-- JavaScript `a || b` for a possibly-undefined string `a` with a
string default `b`. -/
def jsOrStr (a : Option Str) (b : Str) : Str :=
  match a with
  | some s => if s.isEmpty then b else s
  | none => b

/-- Runtime shape of `part.state` (`ToolState` in the source); every field may
be `undefined` because `JSON.parse` does not validate. -/
structure RawToolState (U : Type) where
  status : Option Str
  input : Option U
  output : Option Str
  title : Option Str
  metadata : Option U
  error : Option Str
deriving DecidableEq

/-- Runtime shape of `part` (`OpenCodePart` in the source). -/
structure RawPart (U : Type) where
  id : Option Str
  sessionID : Option Str
  messageID : Option Str
  type : Option Str
  text : Option Str
  tool : Option Str
  callID : Option Str
  state : Option (RawToolState U)
  reason : Option Str
  cost : Option U
  tokens : Option U
  time : Option U
deriving DecidableEq

/-- Runtime shape of a decoded protocol line (`OpenCodeEvent` in the source). -/
structure RawEvent (U : Type) where
  type : Option Str
  timestamp : Option U
  sessionID : Option Str
  part : Option (RawPart U)
deriving DecidableEq

/-- `ParsedToolEvent` of the source. -/
structure ParsedToolEvent (U : Type) where
  toolName : Str
  callID : Option Str
  status : Str
  input : Option U
  output : Option Str
  title : Option Str
  error : Option Str
deriving DecidableEq

/-- The decoder's emitted events (`ParsedEvent` union of the source). -/
inductive ParsedEvent (U : Type) where
  | text (content : Str) (messageID : Option Str)
  | tool (te : ParsedToolEvent U)
  | stepStart
  | stepFinish (reason : Option Str) (tokens : Option U) (cost : Option U)
  | session (sessionID : Str)
  | error (message : Str)
deriving DecidableEq

/-- The key→value insertion-ordered update of a JavaScript `Map.set`. -/
def setKey {K V : Type} [DecidableEq K] (k : K) (v : V) : List (K × V) → List (K × V)
  | [] => [(k, v)]
  | (k', v') :: rest => if k' = k then (k, v) :: rest else (k', v') :: setKey k v rest

/-- `Map.get` of a JavaScript `Map` represented as an association list. -/
def lookupKey {K V : Type} [DecidableEq K] (k : K) : List (K × V) → Option V
  | [] => none
  | (k', v') :: rest => if k' = k then some v' else lookupKey k rest

/-- The non-buffer state of `StreamParser`: `currentSessionID` and
`pendingTools` (the fields `handleEvent`/`parseLine` read and write). -/
structure DecCore (U : Type) where
  currentSessionID : Option Str
  pendingTools : List (Option Str × ParsedToolEvent U)
deriving DecidableEq

/-- Full `StreamParser` state: the line buffer plus the core. -/
structure ParserState (U : Type) where
  buffer : Str
  core : DecCore U
deriving DecidableEq

/-- The state `StreamParser`'s constructor and `reset()` produce. -/
def decInit {U : Type} : ParserState U := ⟨[], ⟨none, []⟩⟩

/-- The correlation key of `StreamParser.handleToolEvent` (line 169):
`part.callID || part.id`. -/
def toolKey {U : Type} (pt : RawPart U) : Option Str :=
  if jsTruthy pt.callID then pt.callID else pt.id

/-- The `ParsedToolEvent` record built by `StreamParser.handleToolEvent`
(lines 172–181): tool name defaulted to `unknown`, status read from
`state?.status` with default `pending`, the remaining fields copied from
`state?`. -/
def mkToolEvent {U : Type} (pt : RawPart U) : ParsedToolEvent U :=
  { toolName := jsOrStr pt.tool ("unknown".data)
    callID := toolKey pt
    status := jsOrStr (pt.state.bind RawToolState.status) ("pending".data)
    input := pt.state.bind RawToolState.input
    output := pt.state.bind RawToolState.output
    title := pt.state.bind RawToolState.title
    error := pt.state.bind RawToolState.error }

/-- `StreamParser.handleToolEvent` (source lines 167–185): derive the
correlation key, build the event, record it by key (replace-on-key), and
emit it unconditionally. -/
def handleToolEvent {U : Type} (pt : RawPart U) (c : DecCore U) :
    DecCore U × List (ParsedEvent U) :=
  ({ c with pendingTools := setKey (toolKey pt) (mkToolEvent pt) c.pendingTools },
   [.tool (mkToolEvent pt)])

/-- The session-latch prelude of `StreamParser.handleEvent` (lines 122–128):
`if (event.sessionID && !this.currentSessionID)`, set the latch, emit a
session event. -/
def latchStep {U : Type} (sid : Option Str) (c : DecCore U) :
    DecCore U × List (ParsedEvent U) :=
  match sid with
  | some s =>
      if !s.isEmpty && c.currentSessionID = none then
        ({ c with currentSessionID := some s }, [.session s])
      else (c, [])
  | none => (c, [])

/-- The `switch (event.type)` of `StreamParser.handleEvent` (lines 130–164).
The `Bool` is `true` when the JavaScript code would raise a `TypeError` by
reading a field of an `undefined` `event.part`; events emitted before that
point are retained.  Unknown `type` values fall through the `switch` and
emit nothing. -/
def routeStep {U : Type} (ev : RawEvent U) (c : DecCore U) :
    DecCore U × List (ParsedEvent U) × Bool :=
  match ev.type with
  | none => (c, [], false)
  | some t =>
    if t = "step_start".data then (c, [.stepStart], false)
    else if t = "text".data then
      match ev.part with
      | none => (c, [], true)
      | some pt =>
          (c,
           (match pt.text with
            | some tx => if tx.isEmpty then [] else [.text tx pt.messageID]
            | none => []),
           false)
    else if t = "tool_use".data then
      match ev.part with
      | none => (c, [], true)
      | some pt =>
          ((handleToolEvent pt c).1, (handleToolEvent pt c).2, false)
    else if t = "step_finish".data then
      match ev.part with
      | none => (c, [], true)
      | some pt => (c, [.stepFinish pt.reason pt.tokens pt.cost], false)
    else if t = "error".data then
      match ev.part with
      | none => (c, [], true)
      | some pt => (c, [.error (jsOrStr pt.text "Unknown error".data)], false)
    else (c, [], false)

/-- `StreamParser.handleEvent` (lines 121–165): session latch first, then
routing by type.  Returns the new core, the emitted events in order, and
whether a `TypeError` escaped (to be caught by `parseLine`). -/
def handleEventX {U : Type} (ev : RawEvent U) (c : DecCore U) :
    DecCore U × List (ParsedEvent U) × Bool :=
  ((routeStep ev (latchStep ev.sessionID c).1).1,
   (latchStep ev.sessionID c).2 ++ (routeStep ev (latchStep ev.sessionID c).1).2.1,
   (routeStep ev (latchStep ev.sessionID c).1).2.2)

/-- The `catch` block of `StreamParser.parseLine` (lines 110–118): surface a
non-empty line as a raw text event with sentinel messageID `"raw"`. -/
def rawFallback {U : Type} (line : Str) : List (ParsedEvent U) :=
  if (trimS line).isEmpty then [] else [.text line (some "raw".data)]

/-- `StreamParser.parseLine` (lines 106–119): `try { JSON.parse; handleEvent }
catch { raw-text fallback }`.  `p` is the `JSON.parse`-and-cast step;
`p line = none` models an invalid-JSON throw. -/
def parseLine {U : Type} (p : Str → Option (RawEvent U)) (line : Str)
    (c : DecCore U) : DecCore U × List (ParsedEvent U) :=
  match p line with
  | none => (c, rawFallback line)
  | some ev =>
      match handleEventX ev c with
      | (c', evs, true) => (c', evs ++ rawFallback line)
      | (c', evs, false) => (c', evs)

/-- `buffer.split('\n')` followed by `pop()`: the complete lines, in order,
and the retained trailing fragment. -/
def splitLines : Str → List Str × Str
  | [] => ([], [])
  | c :: cs =>
      if c = '\n' then ([] :: (splitLines cs).1, (splitLines cs).2)
      else
        match splitLines cs with
        | ([], rest) => ([], c :: rest)
        | (l :: ls', rest) => ((c :: l) :: ls', rest)

/-- The per-line loop of `StreamParser.processBuffer` (lines 100–103):
skip blank lines, parse the rest trimmed. -/
def processLines {U : Type} (p : Str → Option (RawEvent U)) (c : DecCore U) :
    List Str → DecCore U × List (ParsedEvent U)
  | [] => (c, [])
  | l :: ls =>
      if (trimS l).isEmpty then processLines p c ls
      else
        ((processLines p (parseLine p (trimS l) c).1 ls).1,
         (parseLine p (trimS l) c).2 ++ (processLines p (parseLine p (trimS l) c).1 ls).2)

/-- `StreamParser.processBuffer` (lines 96–104). -/
def processBuffer {U : Type} (p : Str → Option (RawEvent U)) (s : ParserState U) :
    ParserState U × List (ParsedEvent U) :=
  (⟨(splitLines s.buffer).2, (processLines p s.core (splitLines s.buffer).1).1⟩,
   (processLines p s.core (splitLines s.buffer).1).2)

/-- `StreamParser.feed` (lines 91–94): append the chunk, process the buffer. -/
def feed {U : Type} (p : Str → Option (RawEvent U)) (data : Str)
    (s : ParserState U) : ParserState U × List (ParsedEvent U) :=
  processBuffer p { s with buffer := s.buffer ++ data }

/-- `StreamParser.flush` (lines 197–202): parse a non-blank retained fragment
once, then clear the buffer. -/
def flushP {U : Type} (p : Str → Option (RawEvent U)) (s : ParserState U) :
    ParserState U × List (ParsedEvent U) :=
  if (trimS s.buffer).isEmpty then (s, [])
  else (⟨[], (parseLine p (trimS s.buffer) s.core).1⟩, (parseLine p (trimS s.buffer) s.core).2)

/-- `StreamParser.reset` (lines 191–195): clear buffer, latch and tool map. -/
def decReset {U : Type} (_s : ParserState U) : ParserState U := decInit

/-- One external call into the decoder. -/
inductive DecCall where
  | feedC (data : Str)
  | flushC
deriving DecidableEq

/-- One external call into the decoder, dispatched. -/
def runCall {U : Type} (p : Str → Option (RawEvent U)) (c : DecCall)
    (s : ParserState U) : ParserState U × List (ParsedEvent U) :=
  match c with
  | .feedC data => feed p data s
  | .flushC => flushP p s

/-- Run a sequence of `feed`/`flush` calls, concatenating emitted events. -/
def runCalls {U : Type} (p : Str → Option (RawEvent U)) :
    List DecCall → ParserState U → ParserState U × List (ParsedEvent U)
  | [], s => (s, [])
  | c :: cs, s =>
      ((runCalls p cs (runCall p c s).1).1,
       (runCall p c s).2 ++ (runCalls p cs (runCall p c s).1).2)

/-- Number of session events in an emitted list. -/
def sessionCount {U : Type} (evs : List (ParsedEvent U)) : Nat :=
  evs.countP fun e => match e with | .session _ => true | _ => false

/-- Number of tool events in an emitted list. -/
def toolCount {U : Type} (evs : List (ParsedEvent U)) : Nat :=
  evs.countP fun e => match e with | .tool _ => true | _ => false

/-- Number of error events in an emitted list. -/
def errCount {U : Type} (evs : List (ParsedEvent U)) : Nat :=
  evs.countP fun e => match e with | .error _ => true | _ => false

/-- 1 when the session latch is set. -/
def latchBit {U : Type} (c : DecCore U) : Nat :=
  match c.currentSessionID with
  | none => 0
  | some _ => 1

/-!
## ProcessManager: dispatch queue and supervisor

The queue logic of `ProcessManager.sendMessage` / `processQueue` /
`executeMessage` (ProcessManager.ts lines 267–370) is embedded as a
transition system.  JavaScript's single event loop makes each synchronous
segment atomic; the externally driven steps are a `sendMessage` call and a
process `exit` event.  `live` lists the messages whose spawned process has
not yet exited — the source overwrites `this.process` on spawn but never
spawns while one is live, which is exactly the property at stake, so the
model keeps the full multiset.
-/

/-- External stimuli to the dispatch queue. -/
inductive PMInput where
  | send (m : String)
  | exitI (code : Option Int)
deriving DecidableEq

/-- Observable actions of the dispatch queue/supervisor in trace order. -/
inductive PMAct where
  | spawnA (m : String)
  | exitA (code : Option Int)
  | errorA (m : String)
deriving DecidableEq

/-- Queue-side state: `messageQueue`, `isProcessingQueue`, and the messages
with a live (spawned, not yet exited) process. -/
structure QState where
  queue : List String
  isProcessing : Bool
  live : List String
deriving DecidableEq

/-- The state a fresh `ProcessManager` starts in. -/
def pmInit : QState := ⟨[], false, []⟩

/-- `ProcessManager.processQueue` up to its suspension (lines 274–284): if the
queue is empty, clear `isProcessingQueue` and stop; otherwise set it, shift
the head and spawn its process (`executeMessage` through `spawn`). -/
def drain (s : QState) : QState × List PMAct :=
  match s.queue with
  | [] => ({ s with isProcessing := false }, [])
  | m :: rest => (⟨rest, true, s.live ++ [m]⟩, [.spawnA m])

/-- `ProcessManager.sendMessage` (lines 267–272): enqueue; start draining only
when no drain is in progress. -/
def pmSendMessage (m : String) (s : QState) : QState × List PMAct :=
  let s1 := { s with queue := s.queue ++ [m] }
  if s1.isProcessing then (s1, []) else drain s1

/-- The message the exit handler embeds in a rejection (line 354). -/
def pmErrMsg (c : Int) : String := "Process exited with code " ++ toString c

/-- The `exit` handler of `executeMessage` (lines 347–361) together with the
resumed `processQueue` (lines 283–289): the `exit` event is emitted, a
non-zero exit code rejects the invocation, the queue's `catch` re-emits the
rejection as an error event, and the drain proceeds to the next message. -/
def pmRejectEmit (code : Option Int) : List PMAct :=
  match code with
  | some c => if c ≠ 0 then [.errorA (pmErrMsg c)] else []
  | none => []

/-- See the doc comment above: the exit handler (`code !== 0 && code !== null`
rejects; the queue catches and re-emits) followed by the drain of the next
queued message. -/
def pmOnExit (code : Option Int) (s : QState) : QState × List PMAct :=
  match s.live with
  | [] => (s, [])
  | _ :: rest =>
      ((drain { s with live := rest }).1,
       .exitA code :: (pmRejectEmit code ++ (drain { s with live := rest }).2))

/-- One externally driven step. -/
def pmStep (s : QState) : PMInput → QState × List PMAct
  | .send m => pmSendMessage m s
  | .exitI code => pmOnExit code s

/-- Run a sequence of stimuli from a state, concatenating the trace. -/
def runPM : List PMInput → QState → QState × List PMAct
  | [], s => (s, [])
  | i :: is, s =>
      ((runPM is (pmStep s i).1).1, (pmStep s i).2 ++ (runPM is (pmStep s i).1).2)

/-- Messages submitted via `send`, in order. -/
def sentMsgs (is : List PMInput) : List String :=
  is.filterMap fun i => match i with | .send m => some m | _ => none

/-- Messages spawned in a trace, in order. -/
def spawnedMsgs (tr : List PMAct) : List String :=
  tr.filterMap fun a => match a with | .spawnA m => some m | _ => none

/-- Number of spawn actions in a trace. -/
def spawnCount (tr : List PMAct) : Nat :=
  tr.countP fun a => match a with | .spawnA _ => true | _ => false

/-- Number of exit actions in a trace. -/
def exitCount (tr : List PMAct) : Nat :=
  tr.countP fun a => match a with | .exitA _ => true | _ => false

/-- Number of error actions in a trace. -/
def pmErrCount (tr : List PMAct) : Nat :=
  tr.countP fun a => match a with | .errorA _ => true | _ => false

/-- The invariant every reachable queue state satisfies: at most one live
process, and an idle flag only with nothing queued and nothing live. -/
def QInv (s : QState) : Prop :=
  s.live.length ≤ 1 ∧ (s.isProcessing = false → s.live = [] ∧ s.queue = [])

/-- Prefix balance of a trace that starts with `b` live processes: every
prefix has at most one more spawn than exit, and never more exits than
spawns plus the initial debt. -/
def balOK (b : Nat) (tr : List PMAct) : Prop :=
  ∀ n : Nat,
    exitCount (tr.take n) ≤ spawnCount (tr.take n) + b
    ∧ spawnCount (tr.take n) + b ≤ exitCount (tr.take n) + 1

/-!
## stderr pattern matching

The stderr handler of `executeMessage` (lines 333–345): the raw chunk is
always re-emitted as a `stderr` event, and a substring match against the
known fatal patterns additionally synthesizes one categorized error event.
-/

/-- `haystack.includes(pattern)` on JavaScript strings. -/
def includesS (hay pat : Str) : Bool :=
  match hay with
  | [] => pat.isEmpty
  | _ :: t => pat.isPrefixOf hay || includesS t pat

/-- Events the stderr handler emits. -/
inductive StderrEmit where
  | stderrE (t : Str)
  | errorE (m : Str)
deriving DecidableEq

/-- The stderr `data` handler (lines 333–345), in emission order. -/
def stderrHandler (t : Str) : List StderrEmit :=
  [.stderrE t] ++
    (if includesS t "API key".data || includesS t "auth".data then
      [.errorE ("Authentication failed: ".data ++ trimS t)]
    else if includesS t "clipboard".data then
      [.errorE ("Clipboard error: ".data ++ trimS t ++
        " - Please select an image-capable model".data)]
    else if includesS t "model".data then
      [.errorE ("Model error: ".data ++ trimS t)]
    else [])

/-- A stderr chunk matching one of the recognized fatal patterns. -/
def fatalPattern (t : Str) : Bool :=
  includesS t "API key".data || includesS t "auth".data ||
    includesS t "clipboard".data || includesS t "model".data

/-!
## stop(): graceful-then-forced termination

`ProcessManager.stop` (lines 372–391).  Discrete time in milliseconds; the
single timer fires at 3000.  `exitTime` is when the process would exit
(`none`: it never does, e.g. it ignores both signals); a tie with the timer
is resolved in favour of the timer.  The source resolves either from the
`exit` listener registered in `stop`, or unconditionally at the end of the
timeout callback — after sending `SIGKILL` when the process is still
running — without waiting for the forced kill's exit.
-/

/-- The grace window of `stop()` in milliseconds (line 389). -/
def graceMs : Nat := 3000

/-- Observable outcome of one `stop()` call. -/
structure StopResult where
  gracefulSent : Bool
  forcedSent : Bool
  resolveTime : Option Nat
  exitObserved : Option Nat
deriving DecidableEq

/-- `ProcessManager.stop` (lines 372–391) as a function of whether a process
is live and of the process's exit time. -/
def stopModel (live : Bool) (exitTime : Option Nat) : StopResult :=
  if !live then
    -- lines 373–375: no process or not running → return at once, no signals
    ⟨false, false, some 0, none⟩
  else
    match exitTime with
    | some t =>
        if t < graceMs then
          -- exit listener fires inside the window and resolves (line 378–380)
          ⟨true, false, some t, some t⟩
        else
          -- timeout callback: SIGKILL, then unconditional resolve (384–389)
          ⟨true, true, some graceMs, some t⟩
    | none =>
        ⟨true, true, some graceMs, none⟩

/-!
## Event forwarding to the host (ProcessManager.setupParserListeners)
-/

/-- `ToolEvent` of `types.ts` (lines 63–70): the shape re-emitted to the
host application — no `callID` field. -/
structure ObsToolEvent (U : Type) where
  name : Str
  status : Str
  title : Option Str
  input : Option U
  output : Option Str
  error : Option Str
deriving DecidableEq

/-- The `case 'tool'` branch of `setupParserListeners` (ProcessManager.ts
lines 40–52): rebuild the event from six fields, dropping `callID`. -/
def toObsToolEvent {U : Type} (e : ParsedToolEvent U) : ObsToolEvent U :=
  { name := e.toolName
    status := e.status
    title := e.title
    input := e.input
    output := e.output
    error := e.error }

/-!
## Concrete instances used to evaluate the theorems on sample runs
-/

/-- A decode step on which every line is invalid JSON. -/
def pNone : Str → Option (RawEvent Unit) := fun _ => none

/-- A concrete protocol `text` event carrying sessionID `s1`
(the worked example of the wire-protocol section). -/
def wEvText : RawEvent Unit :=
  { type := some "text".data, timestamp := none, sessionID := some "s1".data,
    part := some { id := some "1".data, sessionID := some "s1".data,
                   messageID := some "m1".data, type := some "text".data,
                   text := some "hello".data, tool := none, callID := none,
                   state := none, reason := none, cost := none, tokens := none,
                   time := none } }

/-- The part of the concrete `tool_use` event below. -/
def wEvToolPart : RawPart Unit :=
  { id := some "2".data, sessionID := some "s1".data,
    messageID := some "m1".data, type := some "tool".data,
    text := none, tool := some "read".data, callID := some "c1".data,
    state := some { status := some "running".data, input := none,
                    output := none, title := none, metadata := none,
                    error := none },
    reason := none, cost := none, tokens := none, time := none }

/-- A concrete `tool_use` protocol event with `callID` `c1`. -/
def wEvTool : RawEvent Unit :=
  { type := some "tool_use".data, timestamp := none, sessionID := some "s1".data,
    part := some wEvToolPart }

/-- A shape-violating event: valid JSON of type `text` but with no `part`
(the handler would throw a `TypeError` reading `part.text`). -/
def wEvNoPart : RawEvent Unit :=
  { type := some "text".data, timestamp := none, sessionID := none, part := none }

/-- A concrete decode step: the line `EVT` decodes to `wEvText`, the line
`TOOL` to `wEvTool`, everything else is invalid JSON. -/
def pW : Str → Option (RawEvent Unit) := fun l =>
  if l = "EVT".data then some wEvText
  else if l = "TOOL".data then some wEvTool
  else none

/-!
## Helper lemmas: trimming, splitting, association lists, event counts
-/

theorem dropWhile_head?_false {α : Type} (p : α → Bool) :
    ∀ (l : List α) (x : α), (l.dropWhile p).head? = some x → p x = false
  | [], x, h => by simp at h
  | a :: t, x, h => by
    rw [List.dropWhile_cons] at h
    cases hp : p a with
    | true =>
        rw [hp] at h
        simp only [if_true] at h
        exact dropWhile_head?_false p t x h
    | false =>
        rw [hp] at h
        simp only [Bool.false_eq_true, if_false, List.head?_cons,
          Option.some.injEq] at h
        subst h
        exact hp

theorem dropWhile_eq_self_of_head {α : Type} (p : α → Bool) (l : List α)
    (h : ∀ x, l.head? = some x → p x = false) : l.dropWhile p = l := by
  cases l with
  | nil => rfl
  | cons a t =>
    rw [List.dropWhile_cons]
    simp [h a rfl]

theorem getLast?_dropWhile {α : Type} (p : α → Bool) :
    ∀ (l : List α), l.dropWhile p ≠ [] → (l.dropWhile p).getLast? = l.getLast?
  | [], h => by simp at h
  | a :: t, h => by
    rw [List.dropWhile_cons] at h ⊢
    cases hp : p a with
    | true =>
        simp only [hp, if_true] at h ⊢
        cases t with
        | nil => simp at h
        | cons b t' =>
            rw [getLast?_dropWhile p (b :: t') h, List.getLast?_cons_cons]
    | false =>
        simp only [hp, Bool.false_eq_true, if_false]

theorem trimS_head?_false (l : Str) (x : Char) (h : (trimS l).head? = some x) :
    isWsp x = false := by
  unfold trimS at h
  rw [List.head?_reverse] at h
  have hb : ((l.dropWhile isWsp).reverse.dropWhile isWsp) ≠ [] := by
    intro he
    rw [he] at h
    simp at h
  rw [getLast?_dropWhile _ _ hb, List.getLast?_reverse] at h
  exact dropWhile_head?_false _ _ _ h

theorem trimS_getLast?_false (l : Str) (x : Char) (h : (trimS l).getLast? = some x) :
    isWsp x = false := by
  unfold trimS at h
  rw [List.getLast?_reverse] at h
  exact dropWhile_head?_false _ _ _ h

theorem trimS_eq_self (l : Str) (h1 : ∀ x, l.head? = some x → isWsp x = false)
    (h2 : ∀ x, l.getLast? = some x → isWsp x = false) : trimS l = l := by
  unfold trimS
  rw [dropWhile_eq_self_of_head _ _ h1]
  rw [dropWhile_eq_self_of_head _ _ (fun x hx => h2 x (by rwa [List.head?_reverse] at hx))]
  exact List.reverse_reverse l

theorem trimS_idem (l : Str) : trimS (trimS l) = trimS l :=
  trimS_eq_self _ (trimS_head?_false l) (trimS_getLast?_false l)

theorem lookupKey_setKey_self {K V : Type} [DecidableEq K] (k : K) (v : V) :
    ∀ m : List (K × V), lookupKey k (setKey k v m) = some v
  | [] => by simp [setKey, lookupKey]
  | (k', v') :: rest => by
    by_cases h : k' = k
    · simp [setKey, lookupKey, h]
    · simp [setKey, lookupKey, h, lookupKey_setKey_self k v rest]

theorem lookupKey_setKey_ne {K V : Type} [DecidableEq K] (k k₂ : K) (v : V)
    (hne : k₂ ≠ k) : ∀ m : List (K × V), lookupKey k₂ (setKey k v m) = lookupKey k₂ m
  | [] => by
      have h' : ¬ k = k₂ := fun h => hne h.symm
      simp [setKey, lookupKey, h']
  | (k', v') :: rest => by
      by_cases h : k' = k
      · subst h
        have h' : ¬ k' = k₂ := fun h => hne h.symm
        simp [setKey, lookupKey, h']
      · simp [setKey, lookupKey, h, lookupKey_setKey_ne k k₂ v hne rest]

theorem splitLines_nil : splitLines [] = ([], []) := rfl

theorem splitLines_cons_nl (cs : Str) :
    splitLines ('\n' :: cs) = ([] :: (splitLines cs).1, (splitLines cs).2) := by
  simp [splitLines]

theorem splitLines_cons_ne (c : Char) (cs : Str) (h : c ≠ '\n') :
    splitLines (c :: cs) =
      match splitLines cs with
      | ([], rest) => ([], c :: rest)
      | (l :: ls', rest) => ((c :: l) :: ls', rest) := by
  simp [splitLines, h]

theorem splitLines_append :
    ∀ (a : Str) (b : Str) (ls1 : List Str) (r1 : Str) (ls2 : List Str) (r2 : Str),
      splitLines a = (ls1, r1) → splitLines (r1 ++ b) = (ls2, r2) →
      splitLines (a ++ b) = (ls1 ++ ls2, r2)
  | [], b, ls1, r1, ls2, r2, h1, h2 => by
      rw [splitLines_nil] at h1
      obtain ⟨rfl, rfl⟩ := Prod.mk.inj h1
      simpa using h2
  | c :: cs, b, ls1, r1, ls2, r2, h1, h2 => by
      by_cases hc : c = '\n'
      · subst hc
        rcases hcs : splitLines cs with ⟨u, v⟩
        rw [splitLines_cons_nl, hcs] at h1
        obtain ⟨rfl, rfl⟩ := Prod.mk.inj h1
        have ih := splitLines_append cs b u v ls2 r2 hcs h2
        rw [List.cons_append, splitLines_cons_nl, ih]
        simp
      · rcases hcs : splitLines cs with ⟨u, v⟩
        rw [splitLines_cons_ne c cs hc, hcs] at h1
        cases u with
        | nil =>
            obtain ⟨rfl, rfl⟩ := Prod.mk.inj h1
            rcases hvb : splitLines (v ++ b) with ⟨w, x⟩
            have ih := splitLines_append cs b [] v w x hcs hvb
            rw [List.cons_append, splitLines_cons_ne c (v ++ b) hc, hvb] at h2
            rw [List.cons_append, splitLines_cons_ne c (cs ++ b) hc, ih]
            cases w with
            | nil =>
                obtain ⟨rfl, rfl⟩ := Prod.mk.inj h2
                rfl
            | cons t ts =>
                obtain ⟨rfl, rfl⟩ := Prod.mk.inj h2
                rfl
        | cons l ls' =>
            obtain ⟨rfl, rfl⟩ := Prod.mk.inj h1
            have ih := splitLines_append cs b (l :: ls') v ls2 r2 hcs h2
            rw [List.cons_append, splitLines_cons_ne c (cs ++ b) hc, ih]
            simp

theorem splitLines_no_nl : ∀ l : Str, '\n' ∉ l → splitLines l = ([], l)
  | [], _ => rfl
  | c :: cs, h => by
    have hc : c ≠ '\n' := fun he => h (he ▸ List.mem_cons_self c cs)
    rw [splitLines_cons_ne c cs hc, splitLines_no_nl cs (fun hm => h (List.mem_cons_of_mem c hm))]

theorem splitLines_line : ∀ (l : Str), '\n' ∉ l → splitLines (l ++ ['\n']) = ([l], [])
  | [], _ => by
      rw [List.nil_append]
      rw [splitLines_cons_nl, splitLines_nil]
  | c :: cs, h => by
      have hc : c ≠ '\n' := fun he => h (he ▸ List.mem_cons_self c cs)
      have ih := splitLines_line cs (fun hm => h (List.mem_cons_of_mem c hm))
      rw [List.cons_append, splitLines_cons_ne c (cs ++ ['\n']) hc, ih]

theorem sessionCount_append {U : Type} (a b : List (ParsedEvent U)) :
    sessionCount (a ++ b) = sessionCount a + sessionCount b :=
  List.countP_append _ _ _

theorem toolCount_append {U : Type} (a b : List (ParsedEvent U)) :
    toolCount (a ++ b) = toolCount a + toolCount b :=
  List.countP_append _ _ _

theorem errCount_append {U : Type} (a b : List (ParsedEvent U)) :
    errCount (a ++ b) = errCount a + errCount b :=
  List.countP_append _ _ _

theorem spawnCount_append (a b : List PMAct) :
    spawnCount (a ++ b) = spawnCount a + spawnCount b :=
  List.countP_append _ _ _

theorem exitCount_append (a b : List PMAct) :
    exitCount (a ++ b) = exitCount a + exitCount b :=
  List.countP_append _ _ _

/-!
## The session latch: the decoder emits a session event exactly when the
latch flips from unset to set, and the latch only ever goes up
-/

theorem latchBit_le_one {U : Type} (c : DecCore U) : latchBit c ≤ 1 := by
  unfold latchBit
  cases c.currentSessionID <;> simp

theorem latchBit_congr {U : Type} (c d : DecCore U)
    (h : c.currentSessionID = d.currentSessionID) : latchBit c = latchBit d := by
  unfold latchBit
  rw [h]

theorem latchStep_latch {U : Type} (sid : Option Str) (c : DecCore U) :
    latchBit (latchStep sid c).1 = latchBit c + sessionCount (latchStep sid c).2 := by
  unfold latchStep
  cases sid with
  | none => simp [sessionCount]
  | some s =>
      cases he : s.isEmpty
      · cases hc : c.currentSessionID <;>
          simp [he, hc, latchBit, sessionCount, List.countP_cons]
      · simp [he, latchBit, sessionCount]

theorem routeStep_sid {U : Type} (ev : RawEvent U) (c : DecCore U) :
    (routeStep ev c).1.currentSessionID = c.currentSessionID := by
  rcases ev with ⟨ty, ts, sid, part⟩
  cases ty with
  | none => rfl
  | some t =>
      cases part with
      | none =>
          simp only [routeStep]
          split_ifs <;> rfl
      | some pt =>
          simp only [routeStep, handleToolEvent]
          split_ifs <;> (try rfl) <;> (cases pt.text <;> (try rfl)) <;>
            (rename_i tx; cases htx : tx.isEmpty <;> simp [htx])

theorem routeStep_sessionCount {U : Type} (ev : RawEvent U) (c : DecCore U) :
    sessionCount (routeStep ev c).2.1 = 0 := by
  rcases ev with ⟨ty, ts, sid, part⟩
  cases ty with
  | none => rfl
  | some t =>
      cases part with
      | none =>
          simp only [routeStep]
          split_ifs <;> rfl
      | some pt =>
          simp only [routeStep, handleToolEvent]
          split_ifs <;> (try rfl) <;> (cases pt.text <;> (try rfl)) <;>
            (rename_i tx; cases htx : tx.isEmpty <;> simp [htx, sessionCount])

theorem handleEventX_latch {U : Type} (ev : RawEvent U) (c : DecCore U) :
    latchBit (handleEventX ev c).1 = latchBit c + sessionCount (handleEventX ev c).2.1 := by
  unfold handleEventX
  have h1 := latchStep_latch ev.sessionID c
  rcases hl : latchStep ev.sessionID c with ⟨c1, pre⟩
  rw [hl] at h1
  simp only at h1
  have h2 := routeStep_sid ev c1
  have h3 := routeStep_sessionCount ev c1
  rcases hr : routeStep ev c1 with ⟨c2, evs, thr⟩
  rw [hr] at h2 h3
  simp only at h2 h3
  try simp only [hl]
  try simp only [hr]
  try dsimp only
  simp only [sessionCount_append]
  rw [latchBit_congr _ _ h2, h1, h3]
  omega

theorem sessionCount_rawFallback {U : Type} (line : Str) :
    sessionCount (rawFallback (U := U) line) = 0 := by
  unfold rawFallback
  split <;> rfl

theorem parseLine_latch {U : Type} (p : Str → Option (RawEvent U)) (line : Str)
    (c : DecCore U) :
    latchBit (parseLine p line c).1 = latchBit c + sessionCount (parseLine p line c).2 := by
  unfold parseLine
  cases hp : p line with
  | none => simp [sessionCount_rawFallback]
  | some ev =>
      dsimp only
      have h := handleEventX_latch ev c
      rcases hx : handleEventX ev c with ⟨c', evs, thr⟩
      rw [hx] at h
      simp only at h
      try simp only [hx]
      try dsimp only
      cases thr <;> simp [sessionCount_append, sessionCount_rawFallback, h]

theorem processLines_latch {U : Type} (p : Str → Option (RawEvent U)) :
    ∀ (ls : List Str) (c : DecCore U),
      latchBit (processLines p c ls).1 = latchBit c + sessionCount (processLines p c ls).2
  | [], c => by simp [processLines, sessionCount]
  | l :: ls, c => by
      unfold processLines
      cases h : (trimS l).isEmpty
      · have h1 := parseLine_latch p (trimS l) c
        rcases hp : parseLine p (trimS l) c with ⟨c1, e1⟩
        rw [hp] at h1
        simp only at h1
        have h2 := processLines_latch p ls c1
        rcases hq : processLines p c1 ls with ⟨c2, e2⟩
        rw [hq] at h2
        simp only at h2
        simp only [h, Bool.false_eq_true, if_false]
        try simp only [hp]
        try dsimp only
        try simp only [hq]
        try dsimp only
        simp [sessionCount_append, h1, h2]
        omega
      · simp [h, processLines_latch p ls c]

theorem processBuffer_latch {U : Type} (p : Str → Option (RawEvent U))
    (s : ParserState U) :
    latchBit (processBuffer p s).1.core =
      latchBit s.core + sessionCount (processBuffer p s).2 := by
  unfold processBuffer
  rcases hs : splitLines s.buffer with ⟨ls, rest⟩
  have h := processLines_latch p ls s.core
  rcases hq : processLines p s.core ls with ⟨c', evs⟩
  rw [hq] at h
  simp only at h
  try simp only [hs]
  try dsimp only
  try simp only [hq]
  try dsimp only
  exact h

theorem flushP_latch {U : Type} (p : Str → Option (RawEvent U)) (s : ParserState U) :
    latchBit (flushP p s).1.core = latchBit s.core + sessionCount (flushP p s).2 := by
  unfold flushP
  cases h : (trimS s.buffer).isEmpty
  · have h1 := parseLine_latch p (trimS s.buffer) s.core
    rcases hp : parseLine p (trimS s.buffer) s.core with ⟨c', evs⟩
    rw [hp] at h1
    simpa [h] using h1
  · simp [h, sessionCount]

theorem runCall_latch {U : Type} (p : Str → Option (RawEvent U)) (c : DecCall)
    (s : ParserState U) :
    latchBit (runCall p c s).1.core = latchBit s.core + sessionCount (runCall p c s).2 := by
  cases c with
  | feedC data => exact processBuffer_latch p { s with buffer := s.buffer ++ data }
  | flushC => exact flushP_latch p s

theorem runCalls_latch {U : Type} (p : Str → Option (RawEvent U)) :
    ∀ (cs : List DecCall) (s : ParserState U),
      latchBit (runCalls p cs s).1.core = latchBit s.core + sessionCount (runCalls p cs s).2
  | [], s => by simp [runCalls, sessionCount]
  | c :: cs, s => by
      have h1 := runCall_latch p c s
      rcases hp : runCall p c s with ⟨s1, e1⟩
      rw [hp] at h1
      simp only at h1
      have h2 := runCalls_latch p cs s1
      rcases hq : runCalls p cs s1 with ⟨s2, e2⟩
      rw [hq] at h2
      simp only at h2
      simp only [runCalls]
      try simp only [hp]
      try dsimp only
      try simp only [hq]
      try dsimp only
      simp [sessionCount_append, h1, h2]
      omega

theorem handleEventX_latched {U : Type} (ev : RawEvent U) (c : DecCore U)
    (h : c.currentSessionID ≠ none) :
    sessionCount (handleEventX ev c).2.1 = 0
    ∧ (handleEventX ev c).1.currentSessionID = c.currentSessionID := by
  unfold handleEventX
  have hl : latchStep ev.sessionID c = (c, []) := by
    unfold latchStep
    cases ev.sessionID with
    | none => rfl
    | some s =>
        cases hc : c.currentSessionID with
        | none => exact absurd hc h
        | some x => simp [hc]
  rw [hl]
  have h2 := routeStep_sid ev c
  have h3 := routeStep_sessionCount ev c
  rcases hr : routeStep ev c with ⟨c2, evs, thr⟩
  rw [hr] at h2 h3
  simp only at h2 h3
  try simp only [hr]
  try dsimp only
  exact ⟨by simpa using h3, h2⟩

theorem handleEventX_first {U : Type} (ev : RawEvent U) (c : DecCore U) (s : Str)
    (h1 : c.currentSessionID = none) (h2 : ev.sessionID = some s) (h3 : s ≠ []) :
    (handleEventX ev c).2.1.head? = some (.session s)
    ∧ (handleEventX ev c).1.currentSessionID = some s
    ∧ sessionCount (handleEventX ev c).2.1 = 1 := by
  unfold handleEventX
  have he : s.isEmpty = false := by
    cases s with
    | nil => exact absurd rfl h3
    | cons a t => rfl
  have hl : latchStep ev.sessionID c =
      ({ c with currentSessionID := some s }, [.session s]) := by
    unfold latchStep
    rw [h2]
    simp [he, h1]
  rw [hl]
  have h4 := routeStep_sid ev { c with currentSessionID := some s }
  have h5 := routeStep_sessionCount ev { c with currentSessionID := some s }
  rcases hr : routeStep ev { c with currentSessionID := some s } with ⟨c2, evs, thr⟩
  rw [hr] at h4 h5
  simp only at h4 h5
  try simp only [hr]
  try dsimp only
  refine ⟨by simp, by simp [h4], ?_⟩
  rw [sessionCount_append, h5]
  rfl

/-- C1: the session identifier is a latch.  Over any sequence of feed/flush
calls: a session event is emitted exactly when the latch flips (so at most
once from a reset state); the first decoded event with a non-empty
`sessionID` while the latch is unset emits the session event first for its
line and sets the latch; once the latch is set no event emits a further
session event; and `reset()` restores the initial state, so the same
sessionID fed again produces a fresh session event. -/
theorem decoder_session_latch :
    (∀ (U : Type) (p : Str → Option (RawEvent U)) (cs : List DecCall) (s : ParserState U),
        latchBit (runCalls p cs s).1.core = latchBit s.core + sessionCount (runCalls p cs s).2)
    ∧ (∀ (U : Type) (p : Str → Option (RawEvent U)) (cs : List DecCall) (s : ParserState U),
        sessionCount (runCalls p cs s).2 + latchBit s.core ≤ 1)
    ∧ (∀ (U : Type) (p : Str → Option (RawEvent U)) (cs : List DecCall),
        sessionCount (runCalls p cs (decInit : ParserState U)).2 ≤ 1)
    ∧ (∀ (U : Type) (ev : RawEvent U) (c : DecCore U) (s : Str),
        c.currentSessionID = none → ev.sessionID = some s → s ≠ [] →
        (handleEventX ev c).2.1.head? = some (.session s)
        ∧ (handleEventX ev c).1.currentSessionID = some s
        ∧ sessionCount (handleEventX ev c).2.1 = 1)
    ∧ (∀ (U : Type) (ev : RawEvent U) (c : DecCore U), c.currentSessionID ≠ none →
        sessionCount (handleEventX ev c).2.1 = 0
        ∧ (handleEventX ev c).1.currentSessionID = c.currentSessionID)
    ∧ (∀ (U : Type) (p : Str → Option (RawEvent U)) (cs : List DecCall) (s : ParserState U),
        runCalls p cs (decReset s) = runCalls p cs (decInit : ParserState U)) := by
  refine ⟨fun U p cs s => runCalls_latch p cs s, ?_, ?_, ?_, ?_, ?_⟩
  · intro U p cs s
    have h := runCalls_latch p cs s
    have hb := latchBit_le_one (runCalls p cs s).1.core
    omega
  · intro U p cs
    have h := runCalls_latch p cs (decInit : ParserState U)
    have hb := latchBit_le_one (runCalls p cs (decInit : ParserState U)).1.core
    have h0 : latchBit (decInit : ParserState U).core = 0 := rfl
    omega
  · exact fun U ev c s h1 h2 h3 => handleEventX_first ev c s h1 h2 h3
  · exact fun U ev c h => handleEventX_latched ev c h
  · intro U p cs s
    rfl

/-- Witness for C1: the sample protocol event sets the latch and emits the
session event first; a run feeding two session-bearing lines emits at most
one session event. -/
theorem decoder_session_latch_witness :
    ((handleEventX wEvText (⟨none, []⟩ : DecCore Unit)).2.1.head? =
        some (.session ("s1".data))
      ∧ (handleEventX wEvText (⟨none, []⟩ : DecCore Unit)).1.currentSessionID =
          some ("s1".data)
      ∧ sessionCount (handleEventX wEvText (⟨none, []⟩ : DecCore Unit)).2.1 = 1)
    ∧ sessionCount
        (runCalls pW [DecCall.feedC ("EVT\nEVT\n".data)] (decInit : ParserState Unit)).2 ≤ 1 :=
  ⟨decoder_session_latch.2.2.2.1 Unit wEvText ⟨none, []⟩ ("s1".data) rfl rfl (by decide),
   decoder_session_latch.2.2.1 Unit pW [DecCall.feedC ("EVT\nEVT\n".data)]⟩

/-!
## Chunk-boundary independence: feed is a homomorphism over concatenation
-/

theorem processLines_append {U : Type} (p : Str → Option (RawEvent U)) :
    ∀ (l1 l2 : List Str) (c : DecCore U),
      processLines p c (l1 ++ l2) =
        ((processLines p (processLines p c l1).1 l2).1,
         (processLines p c l1).2 ++ (processLines p (processLines p c l1).1 l2).2)
  | [], l2, c => by simp [processLines]
  | l :: ls, l2, c => by
      cases h : (trimS l).isEmpty
      · simp only [List.cons_append, processLines, h, Bool.false_eq_true, if_false,
          List.append_eq]
        rw [processLines_append p ls l2 (parseLine p (trimS l) c).1]
        simp [List.append_assoc]
      · simp only [List.cons_append, processLines, h, if_true, List.append_eq]
        exact processLines_append p ls l2 c

theorem feed_append {U : Type} (p : Str → Option (RawEvent U)) (s : ParserState U)
    (a b : Str) :
    feed p (a ++ b) s =
      ((feed p b (feed p a s).1).1, (feed p a s).2 ++ (feed p b (feed p a s).1).2) := by
  unfold feed processBuffer
  simp only
  rcases h1 : splitLines (s.buffer ++ a) with ⟨ls1, r1⟩
  rcases h2 : splitLines (r1 ++ b) with ⟨ls2, r2⟩
  have h3 := splitLines_append (s.buffer ++ a) b ls1 r1 ls2 r2 h1 h2
  rw [show s.buffer ++ (a ++ b) = (s.buffer ++ a) ++ b from (List.append_assoc ..).symm, h3]
  simp only
  rw [processLines_append p ls1 ls2 s.core]

/-- C3: chunk-boundary independence.  Feeding `a ++ b` in one call equals
feeding `a` then `b` (state and emitted events); hence feeding any non-empty
list of chunks equals feeding their concatenation in a single call. -/
theorem chunk_boundary_independence :
    (∀ (U : Type) (p : Str → Option (RawEvent U)) (s : ParserState U) (a b : Str),
        feed p (a ++ b) s =
          ((feed p b (feed p a s).1).1, (feed p a s).2 ++ (feed p b (feed p a s).1).2))
    ∧ (∀ (U : Type) (p : Str → Option (RawEvent U)) (s : ParserState U) (chunks : List Str),
        chunks ≠ [] →
        runCalls p (chunks.map DecCall.feedC) s = feed p chunks.flatten s) := by
  constructor
  · exact fun U p s a b => feed_append p s a b
  · intro U p s chunks h
    induction chunks generalizing s with
    | nil => exact absurd rfl h
    | cons a rest ih =>
        cases rest with
        | nil =>
            simp only [List.map_cons, List.map_nil, runCalls, runCall, List.flatten_cons,
              List.flatten_nil, List.append_nil]
        | cons b rest' =>
            have ih' := ih (fun hx => List.noConfusion hx) (s := (feed p a s).1)
            simp only [List.map_cons, runCalls, runCall] at ih' ⊢
            rw [List.flatten_cons, feed_append p s a (List.flatten (b :: rest')), ← ih']

/-- Witness for C3: the sample line split mid-token across two feeds equals
the single feed of the whole line. -/
theorem chunk_boundary_independence_witness :
    (["EV".data, "T\n".data] ≠ ([] : List Str))
    ∧ runCalls pW (List.map DecCall.feedC ["EV".data, "T\n".data])
          (decInit : ParserState Unit) =
        feed pW (List.flatten ["EV".data, "T\n".data]) decInit :=
  ⟨by decide,
   chunk_boundary_independence.2 Unit pW decInit ["EV".data, "T\n".data] (by decide)⟩

/-!
## Raw-text fallback: malformed lines are reclassified, never dropped,
never escalated to an error
-/

theorem errCount_rawFallback {U : Type} (line : Str) :
    errCount (rawFallback (U := U) line) = 0 := by
  unfold rawFallback
  split <;> rfl

theorem errCount_latchStep {U : Type} (sid : Option Str) (c : DecCore U) :
    errCount (latchStep sid c).2 = 0 := by
  unfold latchStep
  cases sid with
  | none => rfl
  | some s =>
      dsimp only
      split_ifs <;> rfl

theorem toolCount_latchStep {U : Type} (sid : Option Str) (c : DecCore U) :
    toolCount (latchStep sid c).2 = 0 := by
  unfold latchStep
  cases sid with
  | none => rfl
  | some s =>
      dsimp only
      split_ifs <;> rfl

theorem latchStep_tools {U : Type} (sid : Option Str) (c : DecCore U) :
    (latchStep sid c).1.pendingTools = c.pendingTools := by
  unfold latchStep
  cases sid with
  | none => rfl
  | some s =>
      dsimp only
      split_ifs <;> rfl

theorem routeStep_throw {U : Type} (ev : RawEvent U) (c : DecCore U)
    (h : (routeStep ev c).2.2 = true) :
    (routeStep ev c).2.1 = [] ∧ (routeStep ev c).1 = c := by
  rcases ev with ⟨ty, ts, sid, part⟩
  cases ty with
  | none => exact absurd h (by simp [routeStep])
  | some t =>
      cases part with
      | none =>
          simp only [routeStep] at h ⊢
          split_ifs at h ⊢ <;> simp_all
      | some pt =>
          simp only [routeStep] at h ⊢
          split_ifs at h ⊢ <;> simp_all

theorem errCount_handleEventX_throw {U : Type} (ev : RawEvent U) (c : DecCore U)
    (h : (handleEventX ev c).2.2 = true) :
    errCount (handleEventX ev c).2.1 = 0 := by
  unfold handleEventX at h ⊢
  simp only at h
  obtain ⟨h1, _⟩ := routeStep_throw ev (latchStep ev.sessionID c).1 h
  simp only [errCount_append, h1, errCount_latchStep]
  rfl

theorem parseLine_ok {U : Type} (p : Str → Option (RawEvent U)) (line : Str)
    (ev : RawEvent U) (c : DecCore U) (hp : p line = some ev)
    (hok : (handleEventX ev c).2.2 = false) :
    parseLine p line c = ((handleEventX ev c).1, (handleEventX ev c).2.1) := by
  unfold parseLine
  rw [hp]
  rcases hx : handleEventX ev c with ⟨c1, evs, thr⟩
  rw [hx] at hok
  simp only at hok
  subst hok
  dsimp only
  rw [hx]

theorem parseLine_throw {U : Type} (p : Str → Option (RawEvent U)) (line : Str)
    (ev : RawEvent U) (c : DecCore U) (hp : p line = some ev)
    (hthr : (handleEventX ev c).2.2 = true) :
    parseLine p line c =
      ((handleEventX ev c).1, (handleEventX ev c).2.1 ++ rawFallback line) := by
  unfold parseLine
  rw [hp]
  rcases hx : handleEventX ev c with ⟨c1, evs, thr⟩
  rw [hx] at hthr
  simp only at hthr
  subst hthr
  dsimp only
  rw [hx]

/-- C4: a complete line that is not valid JSON yields exactly one text event
with the sentinel messageID `raw` and content equal to the trimmed original
line; the line is not dropped and no error event is produced, and the
decoder state is unchanged apart from the cleared line buffer. -/
theorem nonjson_line_raw_text :
    ∀ (U : Type) (p : Str → Option (RawEvent U)) (c : DecCore U) (l : Str),
      p (trimS l) = none → (trimS l).isEmpty = false → '\n' ∉ l →
      feed p (l ++ ['\n']) ⟨[], c⟩ =
        (⟨[], c⟩, [.text (trimS l) (some ("raw".data))]) := by
  intro U p c l hp hne hnl
  unfold feed processBuffer
  simp only [List.nil_append]
  rw [splitLines_line l hnl]
  simp only
  unfold processLines
  rw [hne]
  simp only [Bool.false_eq_true, if_false]
  unfold parseLine
  rw [hp]
  unfold processLines rawFallback
  rw [trimS_idem, hne]
  simp

/-- Witness for C4: the literal line `not json` decodes to the single raw
text event. -/
theorem nonjson_line_raw_text_witness :
    pW (trimS ("not json".data)) = none
    ∧ feed pW ("not json".data ++ ['\n']) (⟨[], ⟨none, []⟩⟩ : ParserState Unit) =
        (⟨[], ⟨none, []⟩⟩, [.text (trimS ("not json".data)) (some ("raw".data))]) :=
  ⟨by decide,
   nonjson_line_raw_text Unit pW ⟨none, []⟩ ("not json".data) (by decide) (by decide)
     (by decide)⟩

/-- C7: decode failures are recovered locally and never surface as errors:
an invalid-JSON line leaves the decoder core untouched and emits only the
raw-text fallback (no error event); a line whose decoded shape makes the
handler throw is caught by the same guard, keeps the events emitted before
the throw, appends the raw-text fallback, and still emits no error event. -/
theorem decode_failure_recovery :
    (∀ (U : Type) (p : Str → Option (RawEvent U)) (line : Str) (c : DecCore U),
        p line = none →
        parseLine p line c = (c, rawFallback line) ∧ errCount (parseLine p line c).2 = 0)
    ∧ (∀ (U : Type) (p : Str → Option (RawEvent U)) (line : Str) (ev : RawEvent U)
        (c : DecCore U),
        p line = some ev → (handleEventX ev c).2.2 = true →
        parseLine p line c =
          ((handleEventX ev c).1, (handleEventX ev c).2.1 ++ rawFallback line)
        ∧ errCount (parseLine p line c).2 = 0) := by
  constructor
  · intro U p line c hp
    have he : parseLine p line c = (c, rawFallback line) := by
      unfold parseLine
      rw [hp]
    refine ⟨he, ?_⟩
    rw [he]
    exact errCount_rawFallback line
  · intro U p line ev c hp hthr
    have he := parseLine_throw p line ev c hp hthr
    refine ⟨he, ?_⟩
    rw [he]
    simp only [errCount_append, errCount_handleEventX_throw ev c hthr,
      errCount_rawFallback]

/-- Witness for C7: an invalid line is recovered to the raw fallback with no
error event, and a valid-JSON line whose `part` is missing (shape violation:
the handler would throw reading `part.text`) is likewise recovered. -/
theorem decode_failure_recovery_witness :
    (parseLine pNone ("x".data) (⟨none, []⟩ : DecCore Unit) =
        (⟨none, []⟩, rawFallback ("x".data))
      ∧ errCount (parseLine pNone ("x".data) (⟨none, []⟩ : DecCore Unit)).2 = 0)
    ∧ (parseLine (fun _ => some wEvNoPart) ("z".data) (⟨none, []⟩ : DecCore Unit) =
        ((handleEventX wEvNoPart (⟨none, []⟩ : DecCore Unit)).1,
          (handleEventX wEvNoPart (⟨none, []⟩ : DecCore Unit)).2.1 ++ rawFallback ("z".data))
      ∧ errCount (parseLine (fun _ => some wEvNoPart) ("z".data)
          (⟨none, []⟩ : DecCore Unit)).2 = 0) :=
  ⟨decode_failure_recovery.1 Unit pNone ("x".data) ⟨none, []⟩ rfl,
   decode_failure_recovery.2 Unit (fun _ => some wEvNoPart) ("z".data) wEvNoPart
     ⟨none, []⟩ rfl (by decide)⟩

/-!
## Tool correlation: key derivation, replace-on-key tracking, one fresh
event per occurrence
-/

theorem routeStep_tool {U : Type} (ev : RawEvent U) (pt : RawPart U) (c : DecCore U)
    (hty : ev.type = some ("tool_use".data)) (hpt : ev.part = some pt) :
    routeStep ev c = ((handleToolEvent pt c).1, (handleToolEvent pt c).2, false) := by
  unfold routeStep
  rw [hty, hpt]
  dsimp only
  rw [if_neg (by decide : ¬ ("tool_use".data = "step_start".data)),
      if_neg (by decide : ¬ ("tool_use".data = "text".data)),
      if_pos rfl]

theorem handleEventX_tool_spec {U : Type} (ev : RawEvent U) (pt : RawPart U)
    (c : DecCore U) (hty : ev.type = some ("tool_use".data)) (hpt : ev.part = some pt) :
    (handleEventX ev c).2.2 = false
    ∧ toolCount (handleEventX ev c).2.1 = 1
    ∧ (handleEventX ev c).2.1.getLast? = some (.tool (mkToolEvent pt))
    ∧ (handleEventX ev c).1.pendingTools =
        setKey (toolKey pt) (mkToolEvent pt) c.pendingTools := by
  unfold handleEventX
  rw [routeStep_tool ev pt (latchStep ev.sessionID c).1 hty hpt]
  dsimp only
  refine ⟨rfl, ?_, ?_, ?_⟩
  · rw [toolCount_append, toolCount_latchStep]
    rfl
  · unfold handleToolEvent
    dsimp only
    exact List.getLast?_concat _
  · unfold handleToolEvent
    dsimp only
    rw [latchStep_tools]

theorem parseLine_tool {U : Type} (p : Str → Option (RawEvent U)) (line : Str)
    (ev : RawEvent U) (pt : RawPart U) (c : DecCore U) (hp : p line = some ev)
    (hty : ev.type = some ("tool_use".data)) (hpt : ev.part = some pt) :
    toolCount (parseLine p line c).2 = 1 := by
  rw [parseLine_ok p line ev c hp (handleEventX_tool_spec ev pt c hty hpt).1]
  exact (handleEventX_tool_spec ev pt c hty hpt).2.1

theorem processLines_replicate_tool {U : Type} (p : Str → Option (RawEvent U))
    (ev : RawEvent U) (pt : RawPart U) (l : Str) (htr : trimS l = l)
    (hle : l.isEmpty = false) (hp : p l = some ev)
    (hty : ev.type = some ("tool_use".data)) (hpt : ev.part = some pt) :
    ∀ (n : Nat) (c : DecCore U),
      toolCount (processLines p c (List.replicate n l)).2 = n
  | 0, c => rfl
  | n + 1, c => by
      rw [List.replicate_succ]
      unfold processLines
      rw [htr, hle]
      simp only [Bool.false_eq_true, if_false]
      rw [toolCount_append, parseLine_tool p l ev pt c hp hty hpt,
        processLines_replicate_tool p ev pt l htr hle hp hty hpt n
          (parseLine p l c).1]
      omega

/-- C6: tool events are correlated by `callID` with fallback to the part id,
status defaults to `pending` when state is absent, tracking is
replace-on-key while other keys are untouched, and every `tool_use`
occurrence emits exactly one fresh ToolEvent (last for its line, after any
session event) — n occurrences of the same line produce n ToolEvents. -/
theorem tool_event_correlation :
    (∀ (U : Type) (ev : RawEvent U) (pt : RawPart U) (c : DecCore U),
        ev.type = some ("tool_use".data) → ev.part = some pt →
        (handleEventX ev c).2.2 = false
        ∧ toolCount (handleEventX ev c).2.1 = 1
        ∧ (handleEventX ev c).2.1.getLast? = some (.tool (mkToolEvent pt))
        ∧ lookupKey (toolKey pt) (handleEventX ev c).1.pendingTools =
            some (mkToolEvent pt)
        ∧ (∀ k, k ≠ toolKey pt →
            lookupKey k (handleEventX ev c).1.pendingTools =
              lookupKey k c.pendingTools)
        ∧ (mkToolEvent pt).callID = toolKey pt
        ∧ (pt.state = none → (mkToolEvent pt).status = "pending".data)
        ∧ (pt.callID = none → toolKey pt = pt.id))
    ∧ (∀ (U : Type) (p : Str → Option (RawEvent U)) (ev : RawEvent U) (pt : RawPart U)
        (l : Str) (n : Nat) (c : DecCore U),
        trimS l = l → l.isEmpty = false → p l = some ev →
        ev.type = some ("tool_use".data) → ev.part = some pt →
        toolCount (processLines p c (List.replicate n l)).2 = n) := by
  constructor
  · intro U ev pt c hty hpt
    obtain ⟨h1, h2, h3, h4⟩ := handleEventX_tool_spec ev pt c hty hpt
    refine ⟨h1, h2, h3, ?_, ?_, rfl, ?_, ?_⟩
    · rw [h4, lookupKey_setKey_self]
    · intro k hk
      rw [h4, lookupKey_setKey_ne _ _ _ hk]
    · intro hst
      unfold mkToolEvent
      rw [hst]
      rfl
    · intro hcid
      unfold toolKey
      rw [hcid]
      rfl
  · intro U p ev pt l n c htr hle hp hty hpt
    exact processLines_replicate_tool p ev pt l htr hle hp hty hpt n c

/-- Witness for C6: the sample `tool_use` event with `callID` `c1` emits one
fresh ToolEvent and records it under `c1`; two copies of the `TOOL` line
yield two ToolEvents. -/
theorem tool_event_correlation_witness :
    (toolCount (handleEventX wEvTool (⟨none, []⟩ : DecCore Unit)).2.1 = 1
      ∧ lookupKey (toolKey wEvToolPart)
          (handleEventX wEvTool (⟨none, []⟩ : DecCore Unit)).1.pendingTools =
        some (mkToolEvent wEvToolPart))
    ∧ toolCount (processLines pW (⟨none, []⟩ : DecCore Unit)
        (List.replicate 2 ("TOOL".data))).2 = 2 :=
  ⟨⟨((tool_event_correlation.1 Unit wEvTool wEvToolPart ⟨none, []⟩ rfl rfl)).2.1,
    ((tool_event_correlation.1 Unit wEvTool wEvToolPart ⟨none, []⟩ rfl rfl)).2.2.2.1⟩,
   tool_event_correlation.2 Unit pW wEvTool wEvToolPart ("TOOL".data) 2 ⟨none, []⟩
     (by decide) (by decide) (by decide) rfl rfl⟩

/-!
## Dispatch queue: single-flight, FIFO, failure does not halt the queue
-/

theorem spawnCount_nil : spawnCount [] = 0 := rfl

theorem exitCount_nil : exitCount [] = 0 := rfl

theorem spawnedMsgs_append (a b : List PMAct) :
    spawnedMsgs (a ++ b) = spawnedMsgs a ++ spawnedMsgs b :=
  List.filterMap_append ..

theorem sentMsgs_cons (i : PMInput) (is : List PMInput) :
    sentMsgs (i :: is) = sentMsgs [i] ++ sentMsgs is := by
  cases i <;> simp [sentMsgs]

theorem balOK_nil (b : Nat) (hb : b ≤ 1) : balOK b [] := by
  intro n
  simp [spawnCount, exitCount]
  omega

theorem spawnCount_cons_spawnA (m : String) (tr : List PMAct) :
    spawnCount (.spawnA m :: tr) = spawnCount tr + 1 := by
  simp [spawnCount, List.countP_cons]

theorem spawnCount_cons_exitA (code : Option Int) (tr : List PMAct) :
    spawnCount (.exitA code :: tr) = spawnCount tr := by
  simp [spawnCount, List.countP_cons]

theorem spawnCount_cons_errorA (m : String) (tr : List PMAct) :
    spawnCount (.errorA m :: tr) = spawnCount tr := by
  simp [spawnCount, List.countP_cons]

theorem exitCount_cons_spawnA (m : String) (tr : List PMAct) :
    exitCount (.spawnA m :: tr) = exitCount tr := by
  simp [exitCount, List.countP_cons]

theorem exitCount_cons_exitA (code : Option Int) (tr : List PMAct) :
    exitCount (.exitA code :: tr) = exitCount tr + 1 := by
  simp [exitCount, List.countP_cons]

theorem exitCount_cons_errorA (m : String) (tr : List PMAct) :
    exitCount (.errorA m :: tr) = exitCount tr := by
  simp [exitCount, List.countP_cons]

theorem balOK_spawn_single (m : String) : balOK 0 [.spawnA m] := by
  intro n
  cases n with
  | zero => simp [spawnCount_nil, exitCount_nil]
  | succ k =>
      rw [List.take_succ_cons, List.take_nil, spawnCount_cons_spawnA,
        exitCount_cons_spawnA, spawnCount_nil, exitCount_nil]
      omega

theorem balOK_cons_err (b : Nat) (m : String) (rest : List PMAct)
    (h : balOK b rest) : balOK b (.errorA m :: rest) := by
  intro n
  cases n with
  | zero =>
      have h0 := h 0
      rw [List.take_zero] at h0 ⊢
      exact h0
  | succ k =>
      have hk := h k
      rw [List.take_succ_cons, spawnCount_cons_errorA, exitCount_cons_errorA]
      omega

theorem balOK_cons_exit (code : Option Int) (rest : List PMAct)
    (h : balOK 0 rest) : balOK 1 (.exitA code :: rest) := by
  intro n
  cases n with
  | zero =>
      rw [List.take_zero, spawnCount_nil, exitCount_nil]
      omega
  | succ k =>
      have hk := h k
      rw [List.take_succ_cons, spawnCount_cons_exitA, exitCount_cons_exitA]
      omega

theorem balOK_reject_append (code : Option Int) (rest : List PMAct)
    (h : balOK 0 rest) : balOK 0 (pmRejectEmit code ++ rest) := by
  unfold pmRejectEmit
  cases code with
  | none => simpa using h
  | some c =>
      by_cases hc : c = 0
      · simpa [hc] using h
      · simpa [hc] using balOK_cons_err 0 (pmErrMsg c) rest h

theorem balOK_append (b b1 : Nat) (a1 a2 : List PMAct) (h1 : balOK b a1)
    (hbal : spawnCount a1 + b = exitCount a1 + b1) (h2 : balOK b1 a2) :
    balOK b (a1 ++ a2) := by
  intro n
  rw [List.take_append_eq_append_take, spawnCount_append, exitCount_append]
  by_cases hn : n ≤ a1.length
  · have hz : n - a1.length = 0 := by omega
    rw [hz]
    have ha := h1 n
    simp only [List.take_zero, spawnCount_nil, exitCount_nil]
    omega
  · have htake : a1.take n = a1 := List.take_of_length_le (by omega)
    rw [htake]
    have ha := h2 (n - a1.length)
    omega

theorem pmStep_spec (s : QState) (i : PMInput) (h : QInv s) :
    QInv (pmStep s i).1
    ∧ spawnedMsgs (pmStep s i).2 ++ (pmStep s i).1.queue = s.queue ++ sentMsgs [i]
    ∧ spawnCount (pmStep s i).2 + s.live.length =
        exitCount (pmStep s i).2 + (pmStep s i).1.live.length
    ∧ balOK s.live.length (pmStep s i).2 := by
  obtain ⟨q, ip, lv⟩ := s
  obtain ⟨hlen, hidle⟩ := h
  cases i with
  | send m =>
      cases ip with
      | false =>
          obtain ⟨hl, hq⟩ := hidle rfl
          simp only at hl hq
          subst hl hq
          have hstep : pmStep ⟨[], false, []⟩ (.send m) = (⟨[], true, [m]⟩, [.spawnA m]) := rfl
          rw [hstep]
          refine ⟨⟨by simp, by intro hx; simp at hx⟩, ?_, rfl, ?_⟩
          · simp [spawnedMsgs, sentMsgs]
          · simpa using balOK_spawn_single m
      | true =>
          have hstep : pmStep ⟨q, true, lv⟩ (.send m) = (⟨q ++ [m], true, lv⟩, []) := rfl
          rw [hstep]
          refine ⟨⟨by simpa using hlen, by intro hx; simp at hx⟩, ?_, rfl, ?_⟩
          · simp [spawnedMsgs, sentMsgs]
          · exact balOK_nil _ (by simpa using hlen)
  | exitI code =>
      cases lv with
      | nil =>
          have hstep : pmStep ⟨q, ip, []⟩ (.exitI code) = (⟨q, ip, []⟩, []) := rfl
          rw [hstep]
          refine ⟨⟨by simpa using hlen, ?_⟩, ?_, rfl, balOK_nil _ (by simp)⟩
          · intro hx
            exact hidle hx
          · simp [spawnedMsgs, sentMsgs]
      | cons m0 rest =>
          have hrest : rest = [] := by
            simp only [List.length_cons] at hlen
            exact List.eq_nil_of_length_eq_zero (by omega)
          subst hrest
          cases q with
          | nil =>
              have hstep : pmStep ⟨[], ip, [m0]⟩ (.exitI code) =
                  (⟨[], false, []⟩, .exitA code :: (pmRejectEmit code ++ [])) := rfl
              rw [hstep]
              refine ⟨⟨by simp, fun _ => ⟨rfl, rfl⟩⟩, ?_, ?_, ?_⟩
              · unfold pmRejectEmit
                cases code with
                | none => simp [spawnedMsgs, sentMsgs]
                | some c => by_cases hc : c = 0 <;> simp [hc, spawnedMsgs, sentMsgs]
              · unfold pmRejectEmit
                cases code with
                | none => rfl
                | some c =>
                    by_cases hc : c = 0 <;>
                      simp [hc, spawnCount_cons_exitA, exitCount_cons_exitA,
                        spawnCount_cons_errorA, exitCount_cons_errorA,
                        spawnCount_nil, exitCount_nil]
              · simpa using balOK_cons_exit code _ (balOK_reject_append code [] (balOK_nil 0 (by simp)))
          | cons m2 q2 =>
              have hstep : pmStep ⟨m2 :: q2, ip, [m0]⟩ (.exitI code) =
                  (⟨q2, true, [m2]⟩, .exitA code :: (pmRejectEmit code ++ [.spawnA m2])) := rfl
              rw [hstep]
              refine ⟨⟨by simp, by intro hx; simp at hx⟩, ?_, ?_, ?_⟩
              · unfold pmRejectEmit
                cases code with
                | none => simp [spawnedMsgs, sentMsgs]
                | some c => by_cases hc : c = 0 <;> simp [hc, spawnedMsgs, sentMsgs]
              · unfold pmRejectEmit
                cases code with
                | none =>
                    simp [spawnCount_cons_exitA, exitCount_cons_exitA,
                      spawnCount_cons_spawnA, exitCount_cons_spawnA,
                      spawnCount_nil, exitCount_nil]
                | some c =>
                    by_cases hc : c = 0 <;>
                      simp [hc, spawnCount_cons_exitA, exitCount_cons_exitA,
                        spawnCount_cons_errorA, exitCount_cons_errorA,
                        spawnCount_cons_spawnA, exitCount_cons_spawnA,
                        spawnCount_nil, exitCount_nil]
              · simpa using balOK_cons_exit code _
                  (balOK_reject_append code [.spawnA m2] (balOK_spawn_single m2))

theorem runPM_inv : ∀ (is : List PMInput) (s : QState), QInv s →
    QInv (runPM is s).1
    ∧ spawnedMsgs (runPM is s).2 ++ (runPM is s).1.queue = s.queue ++ sentMsgs is
    ∧ spawnCount (runPM is s).2 + s.live.length =
        exitCount (runPM is s).2 + (runPM is s).1.live.length
    ∧ balOK s.live.length (runPM is s).2
  | [], s, h =>
      ⟨h, by simp [runPM, sentMsgs, spawnedMsgs],
       by simp [runPM, spawnCount_nil, exitCount_nil],
       balOK_nil _ h.1⟩
  | i :: is, s, h => by
      obtain ⟨h1, h2, h3, h4⟩ := pmStep_spec s i h
      rcases hp : pmStep s i with ⟨s1, a1⟩
      rw [hp] at h1 h2 h3 h4
      simp only at h1 h2 h3 h4
      obtain ⟨g1, g2, g3, g4⟩ := runPM_inv is s1 h1
      rcases hq : runPM is s1 with ⟨s2, a2⟩
      rw [hq] at g1 g2 g3 g4
      simp only at g1 g2 g3 g4
      simp only [runPM]
      try simp only [hp]
      try dsimp only
      try simp only [hq]
      try dsimp only
      refine ⟨g1, ?_, ?_, ?_⟩
      · rw [spawnedMsgs_append, List.append_assoc, g2, ← List.append_assoc, h2,
          List.append_assoc, ← sentMsgs_cons]
      · rw [spawnCount_append, exitCount_append]
        omega
      · exact balOK_append _ _ _ _ h4 h3 g4

/-- C2: single-flight and FIFO dispatch.  For every sequence of `sendMessage`
calls and process exits, the number of live processes never exceeds one; in
every prefix of the action trace spawns exceed exits by at most one (so a
second process is spawned only after the first has exited); and the spawned
messages are exactly the submitted messages still ahead of the queue, in
strict FIFO submission order. -/
theorem single_flight_fifo :
    ∀ (inputs : List PMInput),
      (runPM inputs pmInit).1.live.length ≤ 1
      ∧ (∀ n : Nat,
          exitCount ((runPM inputs pmInit).2.take n) ≤
            spawnCount ((runPM inputs pmInit).2.take n)
          ∧ spawnCount ((runPM inputs pmInit).2.take n) ≤
              exitCount ((runPM inputs pmInit).2.take n) + 1)
      ∧ spawnedMsgs (runPM inputs pmInit).2 ++ (runPM inputs pmInit).1.queue =
          sentMsgs inputs := by
  intro inputs
  obtain ⟨h1, h2, h3, h4⟩ :=
    runPM_inv inputs pmInit ⟨by simp [pmInit], fun _ => ⟨rfl, rfl⟩⟩
  refine ⟨h1.1, ?_, by simpa [pmInit] using h2⟩
  intro n
  have hb := h4 n
  have h0 : pmInit.live.length = 0 := rfl
  rw [h0] at hb
  omega

/-- C5: a non-zero exit code rejects the invocation with the code embedded in
the message, the queue catches it and emits it as an error event, and the
next queued message is still dispatched; a zero or absent exit code resolves
instead (no error event), and the next message is dispatched either way. -/
theorem failed_turn_continues :
    ∀ (q : List String) (m : String) (code : Option Int),
      (∀ c : Int, code = some c → c ≠ 0 →
        pmOnExit code ⟨q, true, [m]⟩ =
          (match q with
           | [] => (⟨[], false, []⟩, [.exitA code, .errorA (pmErrMsg c)])
           | m2 :: rest =>
               (⟨rest, true, [m2]⟩,
                [.exitA code, .errorA (pmErrMsg c), .spawnA m2])))
      ∧ ((code = none ∨ code = some 0) →
        pmOnExit code ⟨q, true, [m]⟩ =
          (match q with
           | [] => (⟨[], false, []⟩, [.exitA code])
           | m2 :: rest => (⟨rest, true, [m2]⟩, [.exitA code, .spawnA m2]))) := by
  intro q m code
  constructor
  · rintro c rfl hc
    unfold pmOnExit drain pmRejectEmit
    cases q <;> simp [hc]
  · rintro (rfl | rfl) <;>
      (unfold pmOnExit drain pmRejectEmit
       cases q <;> simp)

/-- Witness for C5: exit code 1 with one queued message emits the error and
spawns the next message. -/
theorem failed_turn_continues_witness :
    ((some 1 : Option Int) = some 1 ∧ (1 : Int) ≠ 0)
    ∧ pmOnExit (some 1) ⟨["b"], true, ["a"]⟩ =
        (⟨[], true, ["b"]⟩,
         [.exitA (some 1), .errorA (pmErrMsg 1), .spawnA "b"]) :=
  ⟨⟨rfl, by decide⟩,
   (failed_turn_continues ["b"] "a" (some 1)).1 1 rfl (by decide)⟩

/-!
## stop(): termination escalation; stderr pattern matching; event forwarding
-/

/-- Counterexample to C8 as stated: with a live process that never exits
(it survives both signals), `stop()` sends the graceful and the forced
termination, yet resolves at the end of the grace window without ever
having observed an exit — resolution does not wait for the forced path's
exit. -/
theorem stop_forced_resolves_without_exit :
    (stopModel true none).resolveTime = some graceMs
    ∧ (stopModel true none).forcedSent = true
    ∧ (stopModel true none).exitObserved = none := by
  decide

/-- C8 (amended): when no process is live `stop()` returns immediately; when
one is live it always sends the graceful termination, sends the forced
termination exactly when the process has not exited within the grace
window, and resolves at the exit time or at the end of the grace window,
whichever comes first — the forced path resolves without waiting for the
exit to be observed.  Resolution always happens by the end of the window. -/
theorem stop_graceful_then_forced :
    (∀ et, stopModel false et = ⟨false, false, some 0, none⟩)
    ∧ (∀ et, (stopModel true et).gracefulSent = true)
    ∧ (∀ t, t < graceMs → stopModel true (some t) = ⟨true, false, some t, some t⟩)
    ∧ (∀ t, graceMs ≤ t → stopModel true (some t) = ⟨true, true, some graceMs, some t⟩)
    ∧ stopModel true none = ⟨true, true, some graceMs, none⟩
    ∧ (∀ live et rt, (stopModel live et).resolveTime = some rt → rt ≤ graceMs) := by
  refine ⟨?_, ?_, ?_, ?_, by decide, ?_⟩
  · intro et
    simp [stopModel]
  · intro et
    cases et with
    | none => rfl
    | some t =>
        simp only [stopModel, Bool.not_true, Bool.false_eq_true, if_false]
        split_ifs <;> rfl
  · intro t ht
    simp [stopModel, ht]
  · intro t ht
    have hnt : ¬ t < graceMs := by omega
    simp [stopModel, hnt]
  · intro live et rt hrt
    cases live with
    | false =>
        simp [stopModel] at hrt
        omega
    | true =>
        cases et with
        | none =>
            simp [stopModel] at hrt
            omega
        | some t =>
            simp only [stopModel] at hrt
            split_ifs at hrt with ht <;> simp at hrt <;> omega

/-- Witness for C8's amended theorem: an exit inside the window resolves at
the exit time with no forced kill; an exit after the window forces the kill
and resolves at the window boundary. -/
theorem stop_graceful_then_forced_witness :
    (2 < graceMs ∧ stopModel true (some 2) = ⟨true, false, some 2, some 2⟩)
    ∧ (graceMs ≤ 5000 ∧ stopModel true (some 5000) = ⟨true, true, some graceMs, some 5000⟩) :=
  ⟨⟨by decide, stop_graceful_then_forced.2.2.1 2 (by decide)⟩,
   ⟨by decide, stop_graceful_then_forced.2.2.2.1 5000 (by decide)⟩⟩

/-- C9: every stderr chunk is re-emitted first as a raw pass-through stderr
event, and an additional categorized error event is synthesized exactly when
the text matches one of the recognized fatal patterns (`API key`/`auth`,
`clipboard`, `model`). -/
theorem stderr_passthrough_fatal :
    ∀ t : Str,
      (stderrHandler t).head? = some (.stderrE t)
      ∧ ((∃ m, StderrEmit.errorE m ∈ stderrHandler t) ↔ fatalPattern t = true)
      ∧ StderrEmit.stderrE t ∈ stderrHandler t := by
  intro t
  unfold stderrHandler fatalPattern
  cases h1 : includesS t ("API key".data) <;>
    cases h2 : includesS t ("auth".data) <;>
      cases h3 : includesS t ("clipboard".data) <;>
        cases h4 : includesS t ("model".data) <;>
          simp [h1, h2, h3, h4]

/-- C10: the event the ProcessManager re-emits for a decoder ToolEvent keeps
only name, status, title, input, output and error; the `callID` correlation
key is dropped, so two ToolEvents differing only in `callID` are
indistinguishable to the ProcessManager's consumers. -/
theorem tool_forwarding_drops_callID :
    ∀ (U : Type) (e : ParsedToolEvent U) (cid : Option Str),
      toObsToolEvent { e with callID := cid } = toObsToolEvent e
      ∧ (toObsToolEvent e).name = e.toolName
      ∧ (toObsToolEvent e).status = e.status
      ∧ (toObsToolEvent e).title = e.title
      ∧ (toObsToolEvent e).input = e.input
      ∧ (toObsToolEvent e).output = e.output
      ∧ (toObsToolEvent e).error = e.error :=
  fun U e cid => ⟨rfl, rfl, rfl, rfl, rfl, rfl, rfl⟩

end MOC
